import Mathlib

/-!
# kube-sqs-autoscaler: the control loop of `main.go`

A shallow embedding of `Run` (the polling loop with its two cooldown
timestamps) and of the attribute-name list construction in `main`.

Modelling conventions.

* An instant (`time.Time`) is an `Int`, a count of nanoseconds on the clock the
  process reads; a `time.Duration` is an `Int` of nanoseconds.  `Time.Add` is
  addition (Go's `Add` does not wrap around) and `t.After(u)` is `u < t`.
* The loop's collaborators are answered by the environment.  One iteration
  receives a `Tick`: what `sqs.NumMessages()` returns, whether `p.ScaleUp` and
  `p.ScaleDown` return an error, and the value `time.Now()` returns at each
  of the four places of the loop body where it is read (if that place is
  reached).
* An iteration yields the new values of the two loop variables and the list of
  actuator calls it made, in order.  `time.Sleep(pollInterval)` only lets the
  clock advance, which shows in the readings; log lines are not recorded.
* Go strings are lists of characters (Unicode code points); `strings.Split`
  and `strings.TrimSpace` of the Go standard library are modelled on them.
-/

namespace KubeSqsAutoscaler

/-! ## Configuration (the package-level flag variables read by `Run`) -/

/-- The flag variables of `main.go` that `Run` reads. -/
structure Config where
  pollInterval : Int
  scaleDownCoolPeriod : Int
  scaleUpCoolPeriod : Int
  scaleUpMessages : Int
  scaleDownMessages : Int
  deriving DecidableEq, Repr

/-- One second, in nanoseconds (`time.Second`). -/
def Second : Int := 1000000000

/-- The flag defaults registered in `main`: poll period 5s, scale-down
cooldown 30s, scale-up cooldown 10s, thresholds 100 and 10. -/
def defaultConfig : Config :=
  { pollInterval := 5 * Second
    scaleDownCoolPeriod := 30 * Second
    scaleUpCoolPeriod := 10 * Second
    scaleUpMessages := 100
    scaleDownMessages := 10 }

/-! ## State and environment of one iteration -/

/-- The two local variables of `Run` that survive from one iteration to the
next. -/
structure State where
  lastScaleUpTime : Int
  lastScaleDownTime : Int
  deriving DecidableEq, Repr

/-- An actuator call made by the loop. -/
inductive Call where
  | ScaleUp
  | ScaleDown
  deriving DecidableEq, Repr

/-- The environment of one iteration of the loop. -/
structure Tick where
  /-- result of `sqs.NumMessages()`: `none` when it returns an error -/
  numMessages : Option Int
  /-- `time.Now()` in the scale-up cooldown check (line 52) -/
  nowUpCheck : Int
  /-- `p.ScaleUp(ctx)` returns a non-nil error -/
  scaleUpErr : Bool
  /-- `time.Now()` stamped after a successful scale-up (line 62) -/
  nowUpStamp : Int
  /-- `time.Now()` in the scale-down cooldown check (line 66) -/
  nowDownCheck : Int
  /-- `p.ScaleDown(ctx)` returns a non-nil error -/
  scaleDownErr : Bool
  /-- `time.Now()` stamped after a successful scale-down (line 76) -/
  nowDownStamp : Int
  deriving DecidableEq, Repr

/-- What one iteration leaves behind: the loop variables and the actuator
calls made, in order. -/
structure Step where
  state : State
  calls : List Call
  deriving DecidableEq, Repr

/-- The test `lastScaleUpTime.Add(scaleUpCoolPeriod).After(time.Now())` of
line 52. -/
def upCooling (cfg : Config) (s : State) (now : Int) : Bool :=
  decide (now < s.lastScaleUpTime + cfg.scaleUpCoolPeriod)

/-- The test `lastScaleDownTime.Add(scaleDownCoolPeriod).After(time.Now())`
of line 66. -/
def downCooling (cfg : Config) (s : State) (now : Int) : Bool :=
  decide (now < s.lastScaleDownTime + cfg.scaleDownCoolPeriod)

/-- Lines 65-77: the scale-down block, entered with the loop variables `s`
and the calls `done` made so far in this iteration. -/
def downBlock (cfg : Config) (s : State) (i : Tick) (numMessages : Int)
    (done : List Call) : Step :=
  if numMessages ≤ cfg.scaleDownMessages then
    if downCooling cfg s i.nowDownCheck then
      ⟨s, done⟩                                   -- continue (line 68)
    else if i.scaleDownErr then
      ⟨s, done ++ [Call.ScaleDown]⟩               -- continue (line 73)
    else
      ⟨{ s with lastScaleDownTime := i.nowDownStamp }, done ++ [Call.ScaleDown]⟩
  else
    ⟨s, done⟩

/-- Lines 43-77: the body of the loop after the sleep. -/
def tick (cfg : Config) (s : State) (i : Tick) : Step :=
  match i.numMessages with
  | none => ⟨s, []⟩                                -- continue (line 46)
  | some numMessages =>
    if cfg.scaleUpMessages ≤ numMessages then
      if upCooling cfg s i.nowUpCheck then
        ⟨s, []⟩                                    -- continue (line 54)
      else if i.scaleUpErr then
        ⟨s, [Call.ScaleUp]⟩                        -- continue (line 59)
      else
        downBlock cfg { s with lastScaleUpTime := i.nowUpStamp } i numMessages
          [Call.ScaleUp]
    else
      downBlock cfg s i numMessages []

/-- The `for` loop of `Run` from loop variables `s`, one `Tick` per
iteration: the steps of the iterations, in order.  The loop has no exit, so
every supplied tick is run. -/
def loop (cfg : Config) : State → List Tick → List Step
  | _, [] => []
  | s, i :: rest => tick cfg s i :: loop cfg (tick cfg s i).state rest

/-- The loop variables after running the given ticks from `s`. -/
def loopState (cfg : Config) : State → List Tick → State
  | s, [] => s
  | s, i :: rest => loopState cfg (tick cfg s i).state rest

/-- Lines 37-38: the loop variables as `Run` initialises them, from the two
readings of `time.Now()` taken before the loop. -/
def initState (startUp startDown : Int) : State :=
  { lastScaleUpTime := startUp, lastScaleDownTime := startDown }

/-- `Run`: initialise both timestamps, then loop. -/
def Run (cfg : Config) (startUp startDown : Int) (ticks : List Tick) : List Step :=
  loop cfg (initState startUp startDown) ticks

/-! ## Clock -/

/-- The clock readings of one iteration, in program order. -/
def Tick.readings (i : Tick) : List Int :=
  [i.nowUpCheck, i.nowUpStamp, i.nowDownCheck, i.nowDownStamp]

/-- All clock readings of a sequence of iterations, in program order. -/
def readingsOf : List Tick → List Int
  | [] => []
  | i :: rest => i.readings ++ readingsOf rest

/-- The clock never goes backwards over the given iterations: every reading is
at most every later one. -/
def ClockMonotone (ticks : List Tick) : Prop :=
  (readingsOf ticks).Pairwise (· ≤ ·)

instance decClockMonotone (ticks : List Tick) : Decidable (ClockMonotone ticks) := by
  unfold ClockMonotone; infer_instance

/-- The iteration made a scale-up call that returned no error. -/
def upSucceeded (cfg : Config) (s : State) (i : Tick) : Bool :=
  decide (Call.ScaleUp ∈ (tick cfg s i).calls) && !i.scaleUpErr

/-- The iteration made a scale-down call that returned no error. -/
def downSucceeded (cfg : Config) (s : State) (i : Tick) : Bool :=
  decide (Call.ScaleDown ∈ (tick cfg s i).calls) && !i.scaleDownErr

/-- The stamps of the successful scale-ups of a run, in order. -/
def upStamps (cfg : Config) : State → List Tick → List Int
  | _, [] => []
  | s, i :: rest =>
    (if upSucceeded cfg s i then [i.nowUpStamp] else []) ++
      upStamps cfg (tick cfg s i).state rest

/-- The stamps of the successful scale-downs of a run, in order. -/
def downStamps (cfg : Config) : State → List Tick → List Int
  | _, [] => []
  | s, i :: rest =>
    (if downSucceeded cfg s i then [i.nowDownStamp] else []) ++
      downStamps cfg (tick cfg s i).state rest

/-- Consecutive entries of the list are at least `d` apart. -/
def spacedBy (d : Int) : List Int → Prop
  | [] => True
  | [_] => True
  | a :: b :: rest => a + d ≤ b ∧ spacedBy d (b :: rest)

/-- The configuration of the both-fire edge case: scale-up threshold 10,
scale-down threshold 50, the default cooldowns. -/
def invertedConfig : Config :=
  { defaultConfig with scaleUpMessages := 10, scaleDownMessages := 50 }

/-- An iteration at `t` seconds in which the sample returns `count` and
both actuator calls succeed; all four clock readings are `t` seconds. -/
def tickAt (t : Int) (count : Int) : Tick :=
  ⟨some count, t * Second, false, t * Second, t * Second, false, t * Second⟩

/-! ## The attribute-name list built in `main` -/

/-- Go's `unicode.IsSpace`: the characters with the Unicode White_Space
property. -/
def isSpace (c : Char) : Bool :=
  let n := c.toNat
  n == 0x09 || n == 0x0A || n == 0x0B || n == 0x0C || n == 0x0D || n == 0x20 ||
    n == 0x85 || n == 0xA0 || n == 0x1680 || (0x2000 ≤ n && n ≤ 0x200A) ||
    n == 0x2028 || n == 0x2029 || n == 0x202F || n == 0x205F || n == 0x3000

/-- Go's `strings.TrimSpace`: the string without its leading and trailing
white space. -/
def TrimSpace (s : List Char) : List Char :=
  ((s.dropWhile isSpace).reverse.dropWhile isSpace).reverse

/-- Go's `strings.Index(s, ",")`: the position of the first comma, `none`
where Go returns -1. -/
def IndexComma : List Char → Option Nat
  | [] => none
  | c :: cs => if c = ',' then some 0 else (IndexComma cs).map (· + 1)

/-- The loop of Go's `strings.genSplit` for the separator `","`, with `n`
iterations left: cut at the first comma, go on with what follows it, and put
the remainder last. -/
def genSplit : Nat → List Char → List (List Char)
  | 0, s => [s]
  | n + 1, s =>
    match IndexComma s with
    | none => [s]
    | some m => s.take m :: genSplit n (s.drop (m + 1))

/-- Go's `strings.Split(s, ",")`: `genSplit` sized by the number of commas. -/
def Split (s : List Char) : List (List Char) :=
  genSplit (s.count ',') s

/-- Go's `strings.Join(segs, ",")`. -/
def Join : List (List Char) → List Char
  | [] => []
  | [a] => a
  | a :: b :: rest => a ++ ',' :: Join (b :: rest)

/-- The constant `defaultAttributeNames` of line 28. -/
def defaultAttributeNames : List Char :=
  ("ApproximateNumberOfMessages,ApproximateNumberOfMessagesDelayed," ++
    "ApproximateNumberOfMessagesNotVisible").toList

/-- Lines 103-110 of `main`: the attribute-name list handed to
`NewSqsClient`, from the value of the flag `attribute-names`.  The package
default list `kubesqs.DefaultAttributeNames`, declared outside `main.go`, is a
parameter. -/
def attrNames (DefaultAttributeNames : List (List Char)) (attributeNames : List Char) :
    List (List Char) :=
  if attributeNames ≠ defaultAttributeNames then
    (Split attributeNames).foldl (fun acc attr => acc ++ [TrimSpace attr]) []
  else
    DefaultAttributeNames

/-! ## One iteration -/

/-- C2. In an iteration whose sample succeeds with a count at or above the
scale-up threshold and whose cooldown check reads a time at or after
`lastScaleUpTime + scaleUpCoolPeriod` (equality included), `ScaleUp` is called
exactly once, whatever the scale-down timestamp and cooldown are. -/
theorem scaleUp_fires_once_when_gate_expired (cfg : Config) (s : State) (i : Tick)
    (n : Int) (hs : i.numMessages = some n) (hn : cfg.scaleUpMessages ≤ n)
    (hg : s.lastScaleUpTime + cfg.scaleUpCoolPeriod ≤ i.nowUpCheck) :
    (tick cfg s i).calls.count Call.ScaleUp = 1 := by
  have hc : upCooling cfg s i.nowUpCheck = false := by
    simp only [upCooling, decide_eq_false_iff_not]; omega
  unfold tick
  rw [hs]
  simp only [hn, if_true, hc]
  by_cases he : i.scaleUpErr = true
  · simp [he]
  · simp only [he, Bool.false_eq_true, if_false]
    unfold downBlock
    split_ifs <;> simp

theorem scaleUp_fires_once_when_gate_expired_witness :
    (tick defaultConfig ⟨0, 0⟩
      ⟨some 100, 10 * Second, false, 10 * Second, 10 * Second, true, 10 * Second⟩).calls.count
        Call.ScaleUp = 1 :=
  scaleUp_fires_once_when_gate_expired defaultConfig ⟨0, 0⟩
    ⟨some 100, 10 * Second, false, 10 * Second, 10 * Second, true, 10 * Second⟩ 100
    rfl (by decide) (by decide)

/-- C3, as stated, fails.  Thresholds 10 (up) and 50 (down), count 30, last
scale-up stamped at 100s, last scale-down at 0s, the iteration runs at 105s:
the down gate is ready (0s + 30s ≤ 105s), the up gate is still cooling
(105s < 100s + 10s), and the iteration ends at line 54 without calling
`ScaleDown`. -/
theorem scaleDown_blocked_while_up_cooling :
    let cfg := invertedConfig
    let s : State := ⟨100 * Second, 0⟩
    let i : Tick := ⟨some 30, 105 * Second, false, 105 * Second, 105 * Second, false,
      105 * Second⟩
    (30 : Int) ≤ cfg.scaleDownMessages ∧
      s.lastScaleDownTime + cfg.scaleDownCoolPeriod ≤ i.nowDownCheck ∧
      cfg.scaleUpMessages ≤ (30 : Int) ∧
      i.nowUpCheck < s.lastScaleUpTime + cfg.scaleUpCoolPeriod ∧
      Call.ScaleDown ∉ (tick cfg s i).calls := by
  decide

/-- C3, amended.  In an iteration whose sample succeeds with a count at or
below the scale-down threshold and whose down gate is ready, `ScaleDown` is
called exactly when the scale-up block did not end the iteration: the count is
below the scale-up threshold, or the up gate is ready and `ScaleUp` returned no
error. -/
theorem scaleDown_fires_iff_up_block_passes (cfg : Config) (s : State) (i : Tick)
    (n : Int) (hs : i.numMessages = some n) (hn : n ≤ cfg.scaleDownMessages)
    (hg : s.lastScaleDownTime + cfg.scaleDownCoolPeriod ≤ i.nowDownCheck) :
    Call.ScaleDown ∈ (tick cfg s i).calls ↔
      (n < cfg.scaleUpMessages ∨
        (s.lastScaleUpTime + cfg.scaleUpCoolPeriod ≤ i.nowUpCheck ∧ i.scaleUpErr = false)) := by
  have hd : ∀ t : Int, downCooling cfg ⟨t, s.lastScaleDownTime⟩ i.nowDownCheck = false := by
    intro t
    simp only [downCooling, decide_eq_false_iff_not]; omega
  have hd0 : downCooling cfg s i.nowDownCheck = false := hd s.lastScaleUpTime
  unfold tick
  rw [hs]
  by_cases hup : cfg.scaleUpMessages ≤ n
  · simp only [hup, if_true]
    by_cases hc : upCooling cfg s i.nowUpCheck = true
    · have hc2 : i.nowUpCheck < s.lastScaleUpTime + cfg.scaleUpCoolPeriod := by
        simpa [upCooling] using hc
      simp only [hc, if_true]
      constructor
      · intro h; simp at h
      · rintro (h | ⟨h, _⟩) <;> omega
    · have hc2 : s.lastScaleUpTime + cfg.scaleUpCoolPeriod ≤ i.nowUpCheck := by
        simpa [upCooling] using hc
      simp only [hc, Bool.false_eq_true, if_false]
      by_cases he : i.scaleUpErr = true
      · simp [he]
        omega
      · have he2 : i.scaleUpErr = false := by simpa using he
        simp only [he, Bool.false_eq_true, if_false, downBlock, hn, if_true, hd]
        constructor
        · intro _; exact Or.inr ⟨hc2, trivial⟩
        · intro _; split_ifs <;> simp
  · simp only [hup, if_false, downBlock, hn, if_true, hd0, Bool.false_eq_true]
    constructor
    · intro _; left; omega
    · intro _; split_ifs <;> simp

theorem scaleDown_fires_iff_up_block_passes_witness :
    (5 : Int) ≤ defaultConfig.scaleDownMessages ∧
      (0 : Int) + defaultConfig.scaleDownCoolPeriod ≤ 30 * Second ∧
      (Call.ScaleDown ∈ (tick defaultConfig ⟨25 * Second, 0⟩
          ⟨some 5, 30 * Second, false, 30 * Second, 30 * Second, false,
            30 * Second⟩).calls ↔
        ((5 : Int) < defaultConfig.scaleUpMessages ∨
          (25 * Second + defaultConfig.scaleUpCoolPeriod ≤ 30 * Second ∧ false = false))) :=
  ⟨by decide, by decide,
    scaleDown_fires_iff_up_block_passes defaultConfig ⟨25 * Second, 0⟩
      ⟨some 5, 30 * Second, false, 30 * Second, 30 * Second, false, 30 * Second⟩ 5
      rfl (by decide) (by decide)⟩

/-- C5. In every iteration `lastScaleUpTime` changes only if `ScaleUp` was
called and returned no error, and `lastScaleDownTime` changes only if
`ScaleDown` was called and returned no error.  When a call returns an error
the timestamp of its direction is unchanged, and that gate, ready at the
check that let the call through, is ready at every later time. -/
theorem stamps_only_on_own_success (cfg : Config) (s : State) (i : Tick) :
    ((tick cfg s i).state.lastScaleUpTime ≠ s.lastScaleUpTime →
        Call.ScaleUp ∈ (tick cfg s i).calls ∧ i.scaleUpErr = false) ∧
      ((tick cfg s i).state.lastScaleDownTime ≠ s.lastScaleDownTime →
        Call.ScaleDown ∈ (tick cfg s i).calls ∧ i.scaleDownErr = false) ∧
      (Call.ScaleUp ∈ (tick cfg s i).calls → i.scaleUpErr = true →
        (tick cfg s i).state.lastScaleUpTime = s.lastScaleUpTime ∧
          ∀ t, i.nowUpCheck ≤ t → upCooling cfg (tick cfg s i).state t = false) ∧
      (Call.ScaleDown ∈ (tick cfg s i).calls → i.scaleDownErr = true →
        (tick cfg s i).state.lastScaleDownTime = s.lastScaleDownTime ∧
          ∀ t, i.nowDownCheck ≤ t → downCooling cfg (tick cfg s i).state t = false) := by
  cases hnum : i.numMessages with
  | none => simp [tick, hnum]
  | some n =>
    simp only [tick, hnum, downBlock, upCooling, downCooling]
    refine ⟨?_, ?_, ?_, ?_⟩
    · split_ifs <;> simp_all
    · split_ifs <;> simp_all
    · split_ifs <;> simp_all
      intros; omega
    · split_ifs <;> simp_all
      all_goals intros; omega

/-- C6, as stated, fails.  Thresholds 10 (up) and 50 (down), count 30, both
gates ready, `ScaleUp` succeeds and `ScaleDown` returns an error: an actuator
call returned an error in this iteration, yet `lastScaleUpTime` moved from 0s
to 41s. -/
theorem scaleDown_error_after_up_stamp :
    let cfg := invertedConfig
    let s : State := ⟨0, 0⟩
    let i : Tick := ⟨some 30, 40 * Second, false, 41 * Second, 42 * Second, true,
      43 * Second⟩
    Call.ScaleDown ∈ (tick cfg s i).calls ∧ i.scaleDownErr = true ∧
      (tick cfg s i).state.lastScaleUpTime = 41 * Second ∧
      (tick cfg s i).state.lastScaleUpTime ≠ s.lastScaleUpTime := by
  decide

/-- C6, amended.  When `ScaleUp` is called and returns an error, both
timestamps are as before the iteration.  When `ScaleDown` is called and returns
an error, `lastScaleDownTime` is as before, and `lastScaleUpTime` is as before
unless `ScaleUp` was called and succeeded earlier in the same iteration, in
which case it holds that call's stamp; with the scale-down threshold below
the scale-up threshold both timestamps are as before.  In every case the loop
goes on to the next iteration from the resulting loop variables. -/
theorem actuator_error_keeps_failed_gate (cfg : Config) (s : State) (i : Tick)
    (rest : List Tick) :
    (Call.ScaleUp ∈ (tick cfg s i).calls → i.scaleUpErr = true →
        (tick cfg s i).state = s) ∧
      (Call.ScaleDown ∈ (tick cfg s i).calls → i.scaleDownErr = true →
        (tick cfg s i).state.lastScaleDownTime = s.lastScaleDownTime ∧
          (Call.ScaleUp ∉ (tick cfg s i).calls → (tick cfg s i).state = s) ∧
          (Call.ScaleUp ∈ (tick cfg s i).calls →
            i.scaleUpErr = false ∧
              (tick cfg s i).state.lastScaleUpTime = i.nowUpStamp) ∧
          (cfg.scaleDownMessages < cfg.scaleUpMessages → (tick cfg s i).state = s)) ∧
      loop cfg s (i :: rest) = tick cfg s i :: loop cfg (tick cfg s i).state rest := by
  refine ⟨?_, ?_, rfl⟩
  · cases hnum : i.numMessages with
    | none => simp [tick, hnum]
    | some n =>
      simp only [tick, hnum, downBlock]
      split_ifs <;> simp_all
  · cases hnum : i.numMessages with
    | none => simp [tick, hnum]
    | some n =>
      simp only [tick, hnum, downBlock]
      split_ifs <;> simp_all
      intros; omega

/-- C7. An iteration whose sample fails calls neither `ScaleUp` nor
`ScaleDown` and leaves both timestamps unchanged, whatever the earlier
iterations of the run observed. -/
theorem failed_sample_makes_no_decision (cfg : Config) (s : State) (i : Tick)
    (h : i.numMessages = none) :
    tick cfg s i = ⟨s, []⟩ ∧
      ∀ (s0 : State) (earlier : List Tick),
        (tick cfg (loopState cfg s0 earlier) i).calls = [] ∧
          loopState cfg s0 (earlier ++ [i]) = loopState cfg s0 earlier := by
  have key : ∀ s, tick cfg s i = ⟨s, []⟩ := by
    intro s; simp [tick, h]
  refine ⟨key s, ?_⟩
  intro s0 earlier
  refine ⟨by rw [key], ?_⟩
  induction earlier generalizing s0 with
  | nil => simp [loopState, key]
  | cons j js ih => simpa [loopState] using ih (tick cfg s0 j).state

theorem failed_sample_makes_no_decision_witness :
    (⟨none, 40 * Second, false, 40 * Second, 40 * Second, false, 40 * Second⟩ :
        Tick).numMessages = none ∧
      tick defaultConfig ⟨0, 0⟩
        ⟨none, 40 * Second, false, 40 * Second, 40 * Second, false, 40 * Second⟩ =
          ⟨⟨0, 0⟩, []⟩ :=
  ⟨rfl, (failed_sample_makes_no_decision defaultConfig ⟨0, 0⟩
    ⟨none, 40 * Second, false, 40 * Second, 40 * Second, false, 40 * Second⟩ rfl).1⟩

/-- C8, as stated, fails.  Thresholds 10 (up) and 50 (down), count 30, so
both conditions hold.  First input: last scale-up stamped at 100s, the
iteration runs at 105s; it ends at line 54 and calls nothing, whether the down
gate is ready (last scale-down at 0s) or cooling (last scale-down at 104s):
the down gate is not consulted.  Second input: both gates ready at 40s and
`ScaleUp` returns an error; the iteration ends at line 59 and `ScaleDown` is
not called although its own gate is ready. -/
theorem down_gate_skipped_when_up_block_ends :
    let cfg := invertedConfig
    let i : Tick := ⟨some 30, 105 * Second, false, 105 * Second, 105 * Second, false,
      105 * Second⟩
    let k : Tick := ⟨some 30, 40 * Second, true, 41 * Second, 42 * Second, false,
      43 * Second⟩
    (cfg.scaleUpMessages ≤ (30 : Int) ∧ (30 : Int) ≤ cfg.scaleDownMessages) ∧
      (downCooling cfg ⟨100 * Second, 0⟩ i.nowDownCheck = false ∧
        downCooling cfg ⟨100 * Second, 104 * Second⟩ i.nowDownCheck = true ∧
        tick cfg ⟨100 * Second, 0⟩ i = ⟨⟨100 * Second, 0⟩, []⟩ ∧
        tick cfg ⟨100 * Second, 104 * Second⟩ i = ⟨⟨100 * Second, 104 * Second⟩, []⟩) ∧
      (upCooling cfg ⟨0, 0⟩ k.nowUpCheck = false ∧
        downCooling cfg ⟨0, 0⟩ k.nowDownCheck = false ∧
        tick cfg ⟨0, 0⟩ k = ⟨⟨0, 0⟩, [Call.ScaleUp]⟩) := by
  decide

/-- C8, amended.  With a count between the scale-up threshold and the
scale-down threshold (both inclusive) and a successful sample: `ScaleUp` is
called exactly when the up gate, read from `lastScaleUpTime` and
`scaleUpCoolPeriod` alone, is ready; `ScaleDown` is called exactly when the
scale-up block fell through (up gate ready and `ScaleUp` returned no error)
and the down gate, read from `lastScaleDownTime` and `scaleDownCoolPeriod`
alone, is ready; when the up gate is cooling or `ScaleUp` returns an error the
iteration ends there with both timestamps unchanged and the same calls
whatever `lastScaleDownTime` is; and when both gates are ready and both calls
succeed the iteration calls `ScaleUp`, then `ScaleDown`, and stamps both
timestamps. -/
theorem both_fire_in_one_tick (cfg : Config) (s : State) (i : Tick) (n : Int)
    (hs : i.numMessages = some n) (hup : cfg.scaleUpMessages ≤ n)
    (hdown : n ≤ cfg.scaleDownMessages) :
    (Call.ScaleUp ∈ (tick cfg s i).calls ↔
        s.lastScaleUpTime + cfg.scaleUpCoolPeriod ≤ i.nowUpCheck) ∧
      (Call.ScaleDown ∈ (tick cfg s i).calls ↔
        (s.lastScaleUpTime + cfg.scaleUpCoolPeriod ≤ i.nowUpCheck ∧ i.scaleUpErr = false ∧
          s.lastScaleDownTime + cfg.scaleDownCoolPeriod ≤ i.nowDownCheck)) ∧
      (i.nowUpCheck < s.lastScaleUpTime + cfg.scaleUpCoolPeriod ∨ i.scaleUpErr = true →
        (tick cfg s i).state = s ∧
          ∀ t, (tick cfg ⟨s.lastScaleUpTime, t⟩ i).calls = (tick cfg s i).calls) ∧
      (s.lastScaleUpTime + cfg.scaleUpCoolPeriod ≤ i.nowUpCheck →
        s.lastScaleDownTime + cfg.scaleDownCoolPeriod ≤ i.nowDownCheck →
        i.scaleUpErr = false → i.scaleDownErr = false →
        tick cfg s i =
          ⟨⟨i.nowUpStamp, i.nowDownStamp⟩, [Call.ScaleUp, Call.ScaleDown]⟩) := by
  refine ⟨?_, ?_, ?_, ?_⟩
  · simp only [tick, hs, downBlock, upCooling, downCooling]
    split_ifs <;> simp_all
  · simp only [tick, hs, downBlock, upCooling, downCooling]
    split_ifs <;> simp_all
  · intro h
    simp only [tick, hs, hup, if_true, upCooling]
    rcases h with h | h
    · simp [h]
    · simp only [h, if_true]
      split_ifs <;> simp
  · intro h1 h2 h3 h4
    have c1 : ¬ i.nowUpCheck < s.lastScaleUpTime + cfg.scaleUpCoolPeriod := by omega
    have c2 : ¬ i.nowDownCheck < s.lastScaleDownTime + cfg.scaleDownCoolPeriod := by omega
    simp [tick, hs, downBlock, upCooling, downCooling, hup, hdown, c1, c2, h3, h4]

theorem both_fire_in_one_tick_witness :
    invertedConfig.scaleUpMessages ≤ (30 : Int) ∧
      (30 : Int) ≤ invertedConfig.scaleDownMessages ∧
      tick invertedConfig ⟨0, 0⟩
        ⟨some 30, 40 * Second, false, 41 * Second, 42 * Second, false, 43 * Second⟩ =
          ⟨⟨41 * Second, 43 * Second⟩, [Call.ScaleUp, Call.ScaleDown]⟩ :=
  ⟨by decide, by decide,
    (both_fire_in_one_tick invertedConfig ⟨0, 0⟩
      ⟨some 30, 40 * Second, false, 41 * Second, 42 * Second, false, 43 * Second⟩ 30
      rfl (by decide) (by decide)).2.2.2 (by decide) (by decide) rfl rfl⟩

/-- C9. With the scale-down threshold below the scale-up threshold, no
iteration calls both `ScaleUp` and `ScaleDown`: it makes at most one actuator
call and changes at most one of the two timestamps. -/
theorem ordered_thresholds_exclusive (cfg : Config) (s : State) (i : Tick)
    (h : cfg.scaleDownMessages < cfg.scaleUpMessages) :
    ¬ (Call.ScaleUp ∈ (tick cfg s i).calls ∧ Call.ScaleDown ∈ (tick cfg s i).calls) ∧
      (tick cfg s i).calls.length ≤ 1 ∧
      ((tick cfg s i).state.lastScaleUpTime = s.lastScaleUpTime ∨
        (tick cfg s i).state.lastScaleDownTime = s.lastScaleDownTime) := by
  cases hnum : i.numMessages with
  | none => simp [tick, hnum]
  | some n =>
    simp only [tick, hnum, downBlock]
    split_ifs <;> simp_all <;> omega

theorem ordered_thresholds_exclusive_witness :
    defaultConfig.scaleDownMessages < defaultConfig.scaleUpMessages ∧
      (tick defaultConfig ⟨0, 0⟩
        ⟨some 150, 40 * Second, false, 41 * Second, 42 * Second, false,
          43 * Second⟩).calls.length ≤ 1 :=
  ⟨by decide,
    (ordered_thresholds_exclusive defaultConfig ⟨0, 0⟩
      ⟨some 150, 40 * Second, false, 41 * Second, 42 * Second, false, 43 * Second⟩
      (by decide)).2.1⟩

/-! ## Runs of the loop -/

theorem loop_append (cfg : Config) (s : State) (a b : List Tick) :
    loop cfg s (a ++ b) = loop cfg s a ++ loop cfg (loopState cfg s a) b := by
  induction a generalizing s with
  | nil => rfl
  | cons j js ih => simp [loop, loopState, ih]

theorem loopState_append (cfg : Config) (s : State) (a b : List Tick) :
    loopState cfg s (a ++ b) = loopState cfg (loopState cfg s a) b := by
  induction a generalizing s with
  | nil => rfl
  | cons j js ih => simp [loopState, ih]

theorem readingsOf_append (a b : List Tick) :
    readingsOf (a ++ b) = readingsOf a ++ readingsOf b := by
  induction a with
  | nil => rfl
  | cons j js ih => simp [readingsOf, ih]

/-- A successful scale-up was let through by a ready gate and leaves its stamp
in `lastScaleUpTime`. -/
theorem upSucceeded_spec (cfg : Config) (s : State) (i : Tick)
    (h : upSucceeded cfg s i = true) :
    s.lastScaleUpTime + cfg.scaleUpCoolPeriod ≤ i.nowUpCheck ∧
      (tick cfg s i).state.lastScaleUpTime = i.nowUpStamp := by
  cases hnum : i.numMessages with
  | none => simp [upSucceeded, tick, hnum] at h
  | some n =>
    simp only [upSucceeded, tick, hnum, downBlock, upCooling] at h ⊢
    split_ifs at h ⊢ <;> simp_all

/-- Without a successful scale-up `lastScaleUpTime` stays. -/
theorem not_upSucceeded_spec (cfg : Config) (s : State) (i : Tick)
    (h : upSucceeded cfg s i = false) :
    (tick cfg s i).state.lastScaleUpTime = s.lastScaleUpTime := by
  cases hnum : i.numMessages with
  | none => simp [tick, hnum]
  | some n =>
    simp only [upSucceeded, tick, hnum, downBlock, upCooling] at h ⊢
    split_ifs at h ⊢ <;> simp_all

/-- A successful scale-down was let through by a ready gate and leaves its
stamp in `lastScaleDownTime`. -/
theorem downSucceeded_spec (cfg : Config) (s : State) (i : Tick)
    (h : downSucceeded cfg s i = true) :
    s.lastScaleDownTime + cfg.scaleDownCoolPeriod ≤ i.nowDownCheck ∧
      (tick cfg s i).state.lastScaleDownTime = i.nowDownStamp := by
  cases hnum : i.numMessages with
  | none => simp [downSucceeded, tick, hnum] at h
  | some n =>
    simp only [downSucceeded, tick, hnum, downBlock, downCooling] at h ⊢
    split_ifs at h ⊢ <;> simp_all

/-- Without a successful scale-down `lastScaleDownTime` stays. -/
theorem not_downSucceeded_spec (cfg : Config) (s : State) (i : Tick)
    (h : downSucceeded cfg s i = false) :
    (tick cfg s i).state.lastScaleDownTime = s.lastScaleDownTime := by
  cases hnum : i.numMessages with
  | none => simp [tick, hnum]
  | some n =>
    simp only [downSucceeded, tick, hnum, downBlock, downCooling] at h ⊢
    split_ifs at h ⊢ <;> simp_all

/-- A cooling up gate lets no scale-up through. -/
theorem no_scaleUp_while_cooling (cfg : Config) (s : State) (i : Tick)
    (h : i.nowUpCheck < s.lastScaleUpTime + cfg.scaleUpCoolPeriod) :
    Call.ScaleUp ∉ (tick cfg s i).calls := by
  cases hnum : i.numMessages with
  | none => simp [tick, hnum]
  | some n =>
    simp only [tick, hnum, downBlock, upCooling]
    split_ifs <;> simp_all

/-- A cooling down gate lets no scale-down through. -/
theorem no_scaleDown_while_cooling (cfg : Config) (s : State) (i : Tick)
    (h : i.nowDownCheck < s.lastScaleDownTime + cfg.scaleDownCoolPeriod) :
    Call.ScaleDown ∉ (tick cfg s i).calls := by
  cases hnum : i.numMessages with
  | none => simp [tick, hnum]
  | some n =>
    simp only [tick, hnum, downBlock, downCooling]
    split_ifs <;> simp_all

/-- After an iteration each timestamp is the old one or a reading of that
iteration. -/
theorem tick_state_mem (cfg : Config) (s : State) (i : Tick) :
    ((tick cfg s i).state.lastScaleUpTime = s.lastScaleUpTime ∨
        (tick cfg s i).state.lastScaleUpTime ∈ i.readings) ∧
      ((tick cfg s i).state.lastScaleDownTime = s.lastScaleDownTime ∨
        (tick cfg s i).state.lastScaleDownTime ∈ i.readings) := by
  cases hnum : i.numMessages with
  | none => simp [tick, hnum]
  | some n =>
    simp only [tick, hnum, downBlock, Tick.readings]
    split_ifs <;> simp

/-- After a run each timestamp is the initial one or a reading of the run. -/
theorem loopState_mem (cfg : Config) (s : State) (ticks : List Tick) :
    ((loopState cfg s ticks).lastScaleUpTime = s.lastScaleUpTime ∨
        (loopState cfg s ticks).lastScaleUpTime ∈ readingsOf ticks) ∧
      ((loopState cfg s ticks).lastScaleDownTime = s.lastScaleDownTime ∨
        (loopState cfg s ticks).lastScaleDownTime ∈ readingsOf ticks) := by
  induction ticks generalizing s with
  | nil => simp [loopState]
  | cons j js ih =>
    have h1 := tick_state_mem cfg s j
    have h2 := ih (tick cfg s j).state
    simp only [loopState, readingsOf, List.mem_append]
    refine ⟨?_, ?_⟩
    · rcases h2.1 with e | m
      · rcases h1.1 with e1 | m1
        · left; rw [e, e1]
        · right; left; rw [e]; exact m1
      · right; right; exact m
    · rcases h2.2 with e | m
      · rcases h1.2 with e1 | m1
        · left; rw [e, e1]
        · right; left; rw [e]; exact m1
      · right; right; exact m

theorem spacedBy_tail (d a : Int) (l : List Int) (h : spacedBy d (a :: l)) :
    spacedBy d l := by
  cases l with
  | nil => trivial
  | cons b rest => exact h.2

theorem clockMonotone_cons (i : Tick) (rest : List Tick) (h : ClockMonotone (i :: rest)) :
    i.nowUpCheck ≤ i.nowUpStamp ∧ i.nowDownCheck ≤ i.nowDownStamp ∧ ClockMonotone rest := by
  unfold ClockMonotone at h ⊢
  simp only [readingsOf, Tick.readings] at h
  rw [List.pairwise_append] at h
  obtain ⟨h1, h2, _⟩ := h
  simp only [List.pairwise_cons] at h1
  refine ⟨?_, ?_, h2⟩
  · exact h1.1 _ (by simp)
  · exact h1.2.2.1 _ (by simp)

/-- From `lastScaleUpTime` on, the stamps of the successful scale-ups of a run
are at least the scale-up cooldown apart. -/
theorem upStamps_spaced (cfg : Config) (s : State) (ticks : List Tick)
    (h : ClockMonotone ticks) :
    spacedBy cfg.scaleUpCoolPeriod (s.lastScaleUpTime :: upStamps cfg s ticks) := by
  induction ticks generalizing s with
  | nil => simp [upStamps, spacedBy]
  | cons i rest ih =>
    obtain ⟨hu, _, hrest⟩ := clockMonotone_cons i rest h
    have hih := ih (tick cfg s i).state hrest
    cases hsucc : upSucceeded cfg s i with
    | true =>
      obtain ⟨hready, hstamp⟩ := upSucceeded_spec cfg s i hsucc
      rw [hstamp] at hih
      simp only [upStamps, hsucc, if_true, List.singleton_append, spacedBy]
      exact ⟨by omega, hih⟩
    | false =>
      rw [not_upSucceeded_spec cfg s i hsucc] at hih
      simpa [upStamps, hsucc] using hih

/-- From `lastScaleDownTime` on, the stamps of the successful scale-downs of a
run are at least the scale-down cooldown apart. -/
theorem downStamps_spaced (cfg : Config) (s : State) (ticks : List Tick)
    (h : ClockMonotone ticks) :
    spacedBy cfg.scaleDownCoolPeriod (s.lastScaleDownTime :: downStamps cfg s ticks) := by
  induction ticks generalizing s with
  | nil => simp [downStamps, spacedBy]
  | cons i rest ih =>
    obtain ⟨_, hd, hrest⟩ := clockMonotone_cons i rest h
    have hih := ih (tick cfg s i).state hrest
    cases hsucc : downSucceeded cfg s i with
    | true =>
      obtain ⟨hready, hstamp⟩ := downSucceeded_spec cfg s i hsucc
      rw [hstamp] at hih
      simp only [downStamps, hsucc, if_true, List.singleton_append, spacedBy]
      exact ⟨by omega, hih⟩
    | false =>
      rw [not_downSucceeded_spec cfg s i hsucc] at hih
      simpa [downStamps, hsucc] using hih

/-- In a run with a monotone clock, the timestamps held after a successful
iteration `ij` followed by the iterations `mid` are at least the stamps of
`ij`, whichever of them `ij` wrote. -/
theorem stamp_le_later_state (cfg : Config) (s : State) (ij : Tick) (mid : List Tick)
    (h : ClockMonotone (ij :: mid)) :
    (upSucceeded cfg s ij = true →
        ij.nowUpStamp ≤ (loopState cfg s (ij :: mid)).lastScaleUpTime) ∧
      (downSucceeded cfg s ij = true →
        ij.nowDownStamp ≤ (loopState cfg s (ij :: mid)).lastScaleDownTime) := by
  unfold ClockMonotone at h
  simp only [readingsOf, Tick.readings] at h
  rw [List.pairwise_append] at h
  obtain ⟨_, _, hcross⟩ := h
  have hm := loopState_mem cfg (tick cfg s ij).state mid
  simp only [loopState]
  refine ⟨?_, ?_⟩
  · intro hs
    rcases hm.1 with e | m
    · rw [e, (upSucceeded_spec cfg s ij hs).2]
    · exact hcross _ (by simp) _ m
  · intro hs
    rcases hm.2 with e | m
    · rw [e, (downSucceeded_spec cfg s ij hs).2]
    · exact hcross _ (by simp) _ m

/-- C1. In every run of the loop with a clock that never goes backwards:
after an iteration in which `ScaleUp` succeeded and stamped `t0`, no later
iteration whose scale-up cooldown check reads a time before
`t0 + scaleUpCoolPeriod` calls `ScaleUp`; likewise for `ScaleDown`,
`lastScaleDownTime` and `scaleDownCoolPeriod`; and the stamps of consecutive
successful scale actions of one direction are at least that direction's
cooldown apart. -/
theorem cooldown_exclusive (cfg : Config) (s0 : State) (ticks : List Tick)
    (h : ClockMonotone ticks) :
    (∀ (pre : List Tick) (ij : Tick) (mid : List Tick) (ik : Tick) (post : List Tick),
        ticks = pre ++ ij :: (mid ++ ik :: post) →
        upSucceeded cfg (loopState cfg s0 pre) ij = true →
        ik.nowUpCheck < ij.nowUpStamp + cfg.scaleUpCoolPeriod →
        Call.ScaleUp ∉ (tick cfg (loopState cfg s0 (pre ++ ij :: mid)) ik).calls) ∧
      (∀ (pre : List Tick) (ij : Tick) (mid : List Tick) (ik : Tick) (post : List Tick),
        ticks = pre ++ ij :: (mid ++ ik :: post) →
        downSucceeded cfg (loopState cfg s0 pre) ij = true →
        ik.nowDownCheck < ij.nowDownStamp + cfg.scaleDownCoolPeriod →
        Call.ScaleDown ∉ (tick cfg (loopState cfg s0 (pre ++ ij :: mid)) ik).calls) ∧
      spacedBy cfg.scaleUpCoolPeriod (upStamps cfg s0 ticks) ∧
      spacedBy cfg.scaleDownCoolPeriod (downStamps cfg s0 ticks) := by
  have hsplit : ∀ (pre : List Tick) (ij : Tick) (mid : List Tick) (ik : Tick)
      (post : List Tick), ticks = pre ++ ij :: (mid ++ ik :: post) →
      ClockMonotone (ij :: mid) := by
    intro pre ij mid ik post e
    subst e
    unfold ClockMonotone at h ⊢
    have e2 : pre ++ ij :: (mid ++ ik :: post) = pre ++ ((ij :: mid) ++ ik :: post) := by simp
    rw [e2, readingsOf_append, readingsOf_append, List.pairwise_append] at h
    exact (List.pairwise_append.mp h.2.1).1
  refine ⟨?_, ?_, spacedBy_tail _ _ _ (upStamps_spaced cfg s0 ticks h),
    spacedBy_tail _ _ _ (downStamps_spaced cfg s0 ticks h)⟩
  · intro pre ij mid ik post e hs hlt
    have hle := (stamp_le_later_state cfg (loopState cfg s0 pre) ij mid
      (hsplit pre ij mid ik post e)).1 hs
    rw [← loopState_append] at hle
    exact no_scaleUp_while_cooling cfg _ ik (by omega)
  · intro pre ij mid ik post e hs hlt
    have hle := (stamp_le_later_state cfg (loopState cfg s0 pre) ij mid
      (hsplit pre ij mid ik post e)).2 hs
    rw [← loopState_append] at hle
    exact no_scaleDown_while_cooling cfg _ ik (by omega)

theorem cooldown_exclusive_witness :
    ClockMonotone [tickAt 10 150, tickAt 15 150, tickAt 20 150] ∧
      Call.ScaleUp ∉
        (tick defaultConfig (loopState defaultConfig ⟨0, 0⟩ ([] ++ tickAt 10 150 :: []))
          (tickAt 15 150)).calls ∧
      spacedBy defaultConfig.scaleUpCoolPeriod
        (upStamps defaultConfig ⟨0, 0⟩ [tickAt 10 150, tickAt 15 150, tickAt 20 150]) :=
  ⟨by decide,
    (cooldown_exclusive defaultConfig ⟨0, 0⟩ [tickAt 10 150, tickAt 15 150, tickAt 20 150]
      (by decide)).1 [] (tickAt 10 150) [] (tickAt 15 150) [tickAt 20 150] rfl
      (by decide) (by decide),
    (cooldown_exclusive defaultConfig ⟨0, 0⟩ [tickAt 10 150, tickAt 15 150, tickAt 20 150]
      (by decide)).2.2.1⟩

/-- C4, as stated, fails.  With the flag defaults (poll period 5s, scale-up
cooldown 10s), `Run` started at time 0 and a first iteration 5s later sampling
150 messages: the count is at or above the threshold 100, yet the iteration
ends at the cooldown check (5s < 0s + 10s) and calls nothing. -/
theorem first_tick_within_cooldown_skips :
    defaultConfig.scaleUpMessages ≤ (150 : Int) ∧
      Run defaultConfig 0 0 [tickAt 5 150] = [⟨⟨0, 0⟩, []⟩] ∧
      Call.ScaleUp ∉ (tick defaultConfig (initState 0 0) (tickAt 5 150)).calls := by
  decide

/-- While no sample reaches the scale-up threshold, `lastScaleUpTime` stays. -/
theorem loopState_lastScaleUpTime_of_below (cfg : Config) (s : State) (pre : List Tick)
    (hpre : ∀ j ∈ pre, ∀ m, j.numMessages = some m → m < cfg.scaleUpMessages) :
    (loopState cfg s pre).lastScaleUpTime = s.lastScaleUpTime := by
  induction pre generalizing s with
  | nil => rfl
  | cons j js ih =>
    have hj : (tick cfg s j).state.lastScaleUpTime = s.lastScaleUpTime := by
      cases hnum : j.numMessages with
      | none => simp [tick, hnum]
      | some m =>
        have hm := hpre j (by simp) m hnum
        have hm2 : ¬ cfg.scaleUpMessages ≤ m := by omega
        simp only [tick, hnum, hm2, if_false, downBlock]
        split_ifs <;> rfl
    simp only [loopState]
    rw [ih (tick cfg s j).state (fun j2 hj2 => hpre j2 (by simp [hj2])), hj]

/-- While no sample is at or below the scale-down threshold,
`lastScaleDownTime` stays. -/
theorem loopState_lastScaleDownTime_of_above (cfg : Config) (s : State) (pre : List Tick)
    (hpre : ∀ j ∈ pre, ∀ m, j.numMessages = some m → cfg.scaleDownMessages < m) :
    (loopState cfg s pre).lastScaleDownTime = s.lastScaleDownTime := by
  induction pre generalizing s with
  | nil => rfl
  | cons j js ih =>
    have hj : (tick cfg s j).state.lastScaleDownTime = s.lastScaleDownTime := by
      cases hnum : j.numMessages with
      | none => simp [tick, hnum]
      | some m =>
        have hm := hpre j (by simp) m hnum
        have hm2 : ¬ m ≤ cfg.scaleDownMessages := by omega
        simp only [tick, hnum, hm2, if_false, downBlock]
        split_ifs <;> rfl
    simp only [loopState]
    rw [ih (tick cfg s j).state (fun j2 hj2 => hpre j2 (by simp [hj2])), hj]

/-- With a count at or below the scale-down threshold, `ScaleDown` is called
exactly when the scale-up block falls through and the down gate is ready. -/
theorem scaleDown_called_iff (cfg : Config) (s : State) (i : Tick) (n : Int)
    (hs : i.numMessages = some n) (hn : n ≤ cfg.scaleDownMessages) :
    Call.ScaleDown ∈ (tick cfg s i).calls ↔
      ((n < cfg.scaleUpMessages ∨
          (s.lastScaleUpTime + cfg.scaleUpCoolPeriod ≤ i.nowUpCheck ∧ i.scaleUpErr = false)) ∧
        s.lastScaleDownTime + cfg.scaleDownCoolPeriod ≤ i.nowDownCheck) := by
  simp only [tick, hs, downBlock, upCooling, downCooling]
  split_ifs <;> simp_all

/-- C4, amended.  Neither gate is ready at loop start unless its cooldown is
zero or negative: `Run` initialises `lastScaleUpTime` and `lastScaleDownTime`
with the readings of the clock taken at loop start, so at those readings each
gate is cooling exactly when its cooldown is positive.  The first iteration
whose sample succeeds with a count at or above the scale-up threshold calls
`ScaleUp` exactly when its cooldown check reads a time at or after loop start
plus `scaleUpCoolPeriod`.  The first iteration whose sample succeeds with a
count at or below the scale-down threshold calls `ScaleDown` exactly when the
scale-up block falls through and its cooldown check reads a time at or after
loop start plus `scaleDownCoolPeriod`. -/
theorem gates_cool_from_loop_start (cfg : Config) (startUp startDown : Int)
    (pre : List Tick) (i : Tick) (n : Int) (hs : i.numMessages = some n) :
    Run cfg startUp startDown (pre ++ [i]) =
        Run cfg startUp startDown pre ++
          [tick cfg (loopState cfg (initState startUp startDown) pre) i] ∧
      (upCooling cfg (initState startUp startDown) startUp = true ↔
        0 < cfg.scaleUpCoolPeriod) ∧
      (downCooling cfg (initState startUp startDown) startDown = true ↔
        0 < cfg.scaleDownCoolPeriod) ∧
      ((∀ j ∈ pre, ∀ m, j.numMessages = some m → m < cfg.scaleUpMessages) →
        cfg.scaleUpMessages ≤ n →
        (Call.ScaleUp ∈
            (tick cfg (loopState cfg (initState startUp startDown) pre) i).calls ↔
          startUp + cfg.scaleUpCoolPeriod ≤ i.nowUpCheck)) ∧
      ((∀ j ∈ pre, ∀ m, j.numMessages = some m → cfg.scaleDownMessages < m) →
        n ≤ cfg.scaleDownMessages →
        (Call.ScaleDown ∈
            (tick cfg (loopState cfg (initState startUp startDown) pre) i).calls ↔
          ((n < cfg.scaleUpMessages ∨
              ((loopState cfg (initState startUp startDown) pre).lastScaleUpTime +
                  cfg.scaleUpCoolPeriod ≤ i.nowUpCheck ∧ i.scaleUpErr = false)) ∧
            startDown + cfg.scaleDownCoolPeriod ≤ i.nowDownCheck))) := by
  refine ⟨by simp [Run, loop_append, loop], ?_, ?_, ?_, ?_⟩
  · simp only [upCooling, initState, decide_eq_true_eq]; omega
  · simp only [downCooling, initState, decide_eq_true_eq]; omega
  · intro hpre hn
    have hl := loopState_lastScaleUpTime_of_below cfg (initState startUp startDown) pre hpre
    simp only [initState] at hl
    simp only [tick, hs, hn, if_true, upCooling, downBlock, initState, hl]
    split_ifs <;> simp_all
  · intro hpre hn
    have hl := loopState_lastScaleDownTime_of_above cfg (initState startUp startDown) pre hpre
    have hl2 : (loopState cfg (initState startUp startDown) pre).lastScaleDownTime =
        startDown := by rw [hl]; rfl
    rw [scaleDown_called_iff cfg _ i n hs hn, hl2]

theorem gates_cool_from_loop_start_witness :
    (tickAt 5 5).numMessages = some 5 ∧
      (upCooling defaultConfig (initState 0 0) 0 = true ↔
        0 < defaultConfig.scaleUpCoolPeriod) ∧
      (downCooling defaultConfig (initState 0 0) 0 = true ↔
        0 < defaultConfig.scaleDownCoolPeriod) ∧
      (Call.ScaleUp ∈
          (tick defaultConfig (loopState defaultConfig (initState 0 0) [tickAt 5 50])
            (tickAt 10 150)).calls ↔
        0 + defaultConfig.scaleUpCoolPeriod ≤ (tickAt 10 150).nowUpCheck) ∧
      (Call.ScaleDown ∈
          (tick defaultConfig (loopState defaultConfig (initState 0 0) []) (tickAt 5 5)).calls ↔
        (((5 : Int) < defaultConfig.scaleUpMessages ∨
            ((loopState defaultConfig (initState 0 0) []).lastScaleUpTime +
                defaultConfig.scaleUpCoolPeriod ≤ (tickAt 5 5).nowUpCheck ∧
              (tickAt 5 5).scaleUpErr = false)) ∧
          0 + defaultConfig.scaleDownCoolPeriod ≤ (tickAt 5 5).nowDownCheck)) ∧
      Call.ScaleDown ∉
        (tick defaultConfig (loopState defaultConfig (initState 0 0) []) (tickAt 5 5)).calls :=
  ⟨rfl,
    (gates_cool_from_loop_start defaultConfig 0 0 [] (tickAt 5 5) 5 rfl).2.1,
    (gates_cool_from_loop_start defaultConfig 0 0 [] (tickAt 5 5) 5 rfl).2.2.1,
    (gates_cool_from_loop_start defaultConfig 0 0 [tickAt 5 50] (tickAt 10 150) 150
      rfl).2.2.2.1 (by decide) (by decide),
    (gates_cool_from_loop_start defaultConfig 0 0 [] (tickAt 5 5) 5 rfl).2.2.2.2
      (by decide) (by decide),
    fun hmem =>
      absurd (((gates_cool_from_loop_start defaultConfig 0 0 [] (tickAt 5 5) 5 rfl).2.2.2.2
        (by decide) (by decide)).mp hmem).2 (by decide)⟩

/-! ## The attribute-name list -/

theorem indexComma_none (s : List Char) (h : IndexComma s = none) : ',' ∉ s := by
  induction s with
  | nil => simp
  | cons c cs ih =>
    simp only [IndexComma] at h
    split_ifs at h with hc
    cases hk : IndexComma cs with
    | none =>
      simp only [List.mem_cons, not_or]
      exact ⟨fun e => hc e.symm, ih hk⟩
    | some k => simp [hk] at h

theorem indexComma_some (s : List Char) (m : Nat) (h : IndexComma s = some m) :
    s = s.take m ++ ',' :: s.drop (m + 1) ∧ ',' ∉ s.take m ∧
      s.count ',' = (s.drop (m + 1)).count ',' + 1 := by
  induction s generalizing m with
  | nil => simp [IndexComma] at h
  | cons c cs ih =>
    simp only [IndexComma] at h
    split_ifs at h with hc
    · simp only [Option.some.injEq] at h
      subst h
      subst hc
      simp
    · cases hk : IndexComma cs with
      | none => simp [hk] at h
      | some k =>
        have hm : k + 1 = m := by simpa [hk] using h
        subst hm
        obtain ⟨h1, h2, h3⟩ := ih k hk
        refine ⟨?_, ?_, ?_⟩
        · simp only [List.take_succ_cons, List.drop_succ_cons, List.cons_append]
          rw [← h1]
        · simp only [List.take_succ_cons, List.mem_cons, not_or]
          exact ⟨fun e => hc e.symm, h2⟩
        · simp only [List.drop_succ_cons]
          rw [List.count_cons_of_ne (Ne.symm hc), h3]

/-- With as many iterations as the string has commas, `genSplit` returns one
comma-free segment more than there are commas, and the segments joined by
commas are the string. -/
theorem genSplit_spec (n : Nat) (s : List Char) (h : s.count ',' = n) :
    (genSplit n s).length = n + 1 ∧ Join (genSplit n s) = s ∧
      (∀ seg ∈ genSplit n s, ',' ∉ seg) ∧ genSplit n s ≠ [] := by
  induction n generalizing s with
  | zero =>
    simp only [genSplit, List.length_singleton, Join, List.mem_singleton, forall_eq, ne_eq,
      List.cons_ne_nil, not_false_eq_true, and_true, true_and]
    exact List.count_eq_zero.mp h
  | succ k ih =>
    cases hi : IndexComma s with
    | none =>
      have := List.count_eq_zero.mpr (indexComma_none s hi)
      omega
    | some m =>
      obtain ⟨h1, h2, h3⟩ := indexComma_some s m hi
      obtain ⟨i1, i2, i3, i4⟩ := ih (s.drop (m + 1)) (by omega)
      simp only [genSplit, hi]
      refine ⟨by simp [i1], ?_, ?_, by simp⟩
      · cases hg : genSplit k (List.drop (m + 1) s) with
        | nil => exact absurd hg i4
        | cons b rest =>
          rw [hg] at i2
          simp only [Join]
          rw [i2]
          exact h1.symm
      · intro seg hseg
        simp only [List.mem_cons] at hseg
        rcases hseg with e | hm
        · rw [e]; exact h2
        · exact i3 seg hm

theorem foldl_append_singleton (f : List Char → List Char) (l : List (List Char))
    (acc : List (List Char)) :
    l.foldl (fun acc attr => acc ++ [f attr]) acc = acc ++ l.map f := by
  induction l generalizing acc with
  | nil => simp
  | cons a as ih => simp [ih]

/-- What `TrimSpace` removes is white space before and after, and what it
leaves neither starts nor ends with white space. -/
theorem trimSpace_spec (seg : List Char) :
    ∃ pre post, seg = pre ++ TrimSpace seg ++ post ∧
      (∀ c ∈ pre, isSpace c = true) ∧ (∀ c ∈ post, isSpace c = true) ∧
      (∀ c, (TrimSpace seg).head? = some c → isSpace c = false) ∧
      (∀ c, (TrimSpace seg).getLast? = some c → isSpace c = false) := by
  have e2 := List.takeWhile_append_dropWhile isSpace (seg.dropWhile isSpace).reverse
  have e3 : seg.dropWhile isSpace =
      TrimSpace seg ++ ((seg.dropWhile isSpace).reverse.takeWhile isSpace).reverse := by
    unfold TrimSpace
    rw [← List.reverse_append, e2, List.reverse_reverse]
  refine ⟨seg.takeWhile isSpace,
    ((seg.dropWhile isSpace).reverse.takeWhile isSpace).reverse, ?_, ?_, ?_, ?_, ?_⟩
  · rw [List.append_assoc, ← e3, List.takeWhile_append_dropWhile]
  · intro c hc
    exact List.mem_takeWhile_imp hc
  · intro c hc
    exact List.mem_takeWhile_imp (List.mem_reverse.mp hc)
  · intro c hc
    have hh := List.head?_dropWhile_not isSpace seg
    rw [e3, List.head?_append, hc] at hh
    simpa using hh
  · intro c hc
    unfold TrimSpace at hc
    rw [List.getLast?_reverse] at hc
    have hh := List.head?_dropWhile_not isSpace (seg.dropWhile isSpace).reverse
    rw [hc] at hh
    simpa using hh

/-- C10. For a flag value other than the default string, the list handed to
`NewSqsClient` has one entry per comma-separated segment of the value (the
number of commas plus one, in order: the segments hold no comma and joined by
commas they are the value), each entry the segment without its leading and
trailing white space; no segment is dropped, so the empty value yields one
empty name and an empty segment an empty name.  For the default string the
package default list is used unchanged. -/
theorem attrNames_spec (DefaultAttributeNames : List (List Char))
    (attributeNames : List Char) :
    (attributeNames ≠ defaultAttributeNames →
        (attrNames DefaultAttributeNames attributeNames).length =
            attributeNames.count ',' + 1 ∧
          attrNames DefaultAttributeNames attributeNames =
            (Split attributeNames).map TrimSpace ∧
          Join (Split attributeNames) = attributeNames ∧
          (∀ seg ∈ Split attributeNames, ',' ∉ seg)) ∧
      (∀ seg : List Char, ∃ pre post, seg = pre ++ TrimSpace seg ++ post ∧
        (∀ c ∈ pre, isSpace c = true) ∧ (∀ c ∈ post, isSpace c = true) ∧
        (∀ c, (TrimSpace seg).head? = some c → isSpace c = false) ∧
        (∀ c, (TrimSpace seg).getLast? = some c → isSpace c = false)) ∧
      attrNames DefaultAttributeNames [] = [[]] ∧
      TrimSpace [] = [] ∧
      attrNames DefaultAttributeNames defaultAttributeNames = DefaultAttributeNames := by
  have hmap : ∀ v, v ≠ defaultAttributeNames →
      attrNames DefaultAttributeNames v = (Split v).map TrimSpace := by
    intro v hv
    simp only [attrNames, hv, ne_eq, not_false_eq_true, if_true]
    rw [foldl_append_singleton]
    simp
  refine ⟨?_, trimSpace_spec, ?_, rfl, by simp [attrNames]⟩
  · intro hv
    obtain ⟨g1, g2, g3, _⟩ := genSplit_spec (attributeNames.count ',') attributeNames rfl
    refine ⟨?_, hmap _ hv, g2, g3⟩
    rw [hmap _ hv, List.length_map]
    exact g1
  · rw [hmap [] (by decide)]
    rfl

end KubeSqsAutoscaler
